import Mathlib

set_option maxRecDepth 10000
set_option maxHeartbeats 1000000

/-! Verification development for the `outsidermm/Calculator` repository
(`advance_calc.py`, `utilities.py`, `triangle.py`).

Text is modelled as `List Char` (one Python string or one input line per
list).  Python floats are modelled as exact rationals extended with the
special values `inf`, `-inf` and `nan`; a finite result whose magnitude
reaches `2 ^ 1024` overflows to a signed infinity, as doubles do, while
rounding of in-range finite results is not modelled.  Interactive loops read
from an explicit script of input lines and are written with a fuel argument
equal to the script length, which bounds the iteration count because every
loop iteration consumes at least one input line. -/

abbrev Chars := List Char

/-- Python's whitespace test, as used by `str.split()`, `str.strip()` and
`str.rstrip()` on the ASCII text this program handles. -/
def isPySpace (c : Char) : Bool :=
  c == ' ' || c == '\t' || c == '\n' || c == '\r' || c == '\x0b' || c == '\x0c'

/-- Python `str.lower()` (ASCII inputs only). -/
def pyLower (s : Chars) : Chars := s.map Char.toLower

/-- Python `str.lstrip()`. -/
def pyLstrip (s : Chars) : Chars := s.dropWhile isPySpace

/-- Python `str.rstrip()`. -/
def pyRstrip (s : Chars) : Chars := (s.reverse.dropWhile isPySpace).reverse

/-- Python `str.strip()`. -/
def pyStrip (s : Chars) : Chars := pyLstrip (pyRstrip s)

/-- One step of Python `str.split()` (no argument: split on whitespace runs,
with no empty tokens).  The fuel bounds the number of steps; `pySplit` passes
the string length, which suffices because every step consumes at least one
character. -/
def pySplitGo : Nat → Chars → List Chars
  | 0, _ => []
  | _ + 1, [] => []
  | fuel + 1, c :: cs =>
    if isPySpace c then pySplitGo fuel cs
    else ((c :: cs).takeWhile (fun x => !isPySpace x)) ::
      pySplitGo fuel ((c :: cs).dropWhile (fun x => !isPySpace x))

/-- Python `str.split()`. -/
def pySplit (s : Chars) : List Chars := pySplitGo s.length s

/-- Python `file.readline()` with the cursor at position 0: the first line,
trailing newline included. -/
def pyReadline : Chars → Chars
  | [] => []
  | c :: cs => if c = '\n' then ['\n'] else c :: pyReadline cs

/-- Python `file.readlines()` with the cursor at position 0: every line,
trailing newlines kept, a final newline-free fragment counting as a line. -/
def pyLinesKeepEnds : Chars → List Chars
  | [] => []
  | c :: cs =>
    if c = '\n' then ['\n'] :: pyLinesKeepEnds cs
    else
      match pyLinesKeepEnds cs with
      | [] => [[c]]
      | l :: ls => (c :: l) :: ls

/-- Decimal digits of a natural number, most significant first.  The fuel
bounds the division chain; any fuel above the number itself suffices. -/
def natDigitsGo : Nat → Nat → Chars
  | 0, _ => []
  | fuel + 1, n =>
    if n < 10 then [Char.ofNat (48 + n)]
    else natDigitsGo fuel (n / 10) ++ [Char.ofNat (48 + n % 10)]

/-- Python `str(num)` for a natural number: decimal digits, most significant
first. -/
def pyStr (num : Nat) : Chars := natDigitsGo (num + 1) num

/-- Python `int(s)` at this program's call sites: a nonempty all-digit string
parses to the corresponding natural number, anything else raises (`none`). -/
def pyInt (s : Chars) : Option Nat :=
  if s ≠ [] ∧ s.all Char.isDigit then
    some (s.foldl (fun a c => 10 * a + (c.toNat - 48)) 0)
  else none

/-- `NUM2MORSE_DICT` from `utilities.py`.  A non-digit key is a `KeyError` in
Python; that case is unreachable from `num2morse` because `str` of a natural
number produces only decimal digits. -/
def NUM2MORSE_DICT : Char → Chars
  | '1' => ".----".data
  | '2' => "..---".data
  | '3' => "...--".data
  | '4' => "....-".data
  | '5' => ".....".data
  | '6' => "-....".data
  | '7' => "--...".data
  | '8' => "---..".data
  | '9' => "----.".data
  | '0' => "-----".data
  | _ => []

/-- `MORSE2NUM_DICT` from `utilities.py`; `none` models the `KeyError` on an
unknown Morse token. -/
def MORSE2NUM_DICT (m : Chars) : Option Char :=
  if m = ".----".data then some '1'
  else if m = "..---".data then some '2'
  else if m = "...--".data then some '3'
  else if m = "....-".data then some '4'
  else if m = ".....".data then some '5'
  else if m = "-....".data then some '6'
  else if m = "--...".data then some '7'
  else if m = "---..".data then some '8'
  else if m = "----.".data then some '9'
  else if m = "-----".data then some '0'
  else none

/-- `num2morse` from `utilities.py`: per digit, append the digit's code and a
space, then strip the trailing space. -/
def num2morse (num : Nat) : Chars :=
  pyStrip ((pyStr num).foldl (fun cipher digit => cipher ++ (NUM2MORSE_DICT digit ++ [' '])) [])

/-- The `decipher` accumulation loop of `morse2num`; `none` models the
`KeyError` on an unknown token. -/
def decipherAll : List Chars → Option Chars
  | [] => some []
  | pm :: pms =>
    match MORSE2NUM_DICT pm with
    | none => none
    | some d =>
      match decipherAll pms with
      | none => none
      | some ds => some (d :: ds)

/-- `morse2num` from `utilities.py`; `none` models the exceptions (`KeyError`
on an unknown token, `ValueError` from `int("")`). -/
def morse2num (morse : Chars) : Option Nat :=
  match decipherAll (pySplit morse) with
  | none => none
  | some decipher => pyInt decipher

/-- `ROMAN_NUMERAL_MAP` from `utilities.py`. -/
def ROMAN_NUMERAL_MAP : List (Chars × Nat) :=
  [("M".data, 1000), ("CM".data, 900), ("D".data, 500), ("CD".data, 400),
   ("C".data, 100), ("XC".data, 90), ("L".data, 50), ("XL".data, 40),
   ("X".data, 10), ("IX".data, 9), ("V".data, 5), ("IV".data, 4), ("I".data, 1)]

/-- The inner `while num >= integer` loop of `num2roman`.  The fuel bounds the
iteration count; `num2roman` passes the current `num`, which suffices because
every table value is positive, so every iteration shrinks `num` by at least 1. -/
def romanWhileGo (numeral : Chars) (integer : Nat) : Nat → Nat → Chars × Nat
  | 0, num => ([], num)
  | fuel + 1, num =>
    if integer ≤ num then
      let r := romanWhileGo numeral integer fuel (num - integer)
      (numeral ++ r.1, r.2)
    else ([], num)

/-- `num2roman` from `utilities.py`: `0` renders as `"N"`, otherwise the
subtractive-notation table is applied greedily, top entry first. -/
def num2roman (num : Nat) : Chars :=
  if num = 0 then "N".data
  else
    (ROMAN_NUMERAL_MAP.foldl
      (fun (acc : Chars × Nat) entry =>
        let r := romanWhileGo entry.1 entry.2 acc.2 acc.2
        (acc.1 ++ r.1, r.2))
      ([], num)).1

/-- A calendar date; `date.today()` is an environment read, so the date is a
parameter of every definition that stamps log records. -/
structure RDate where
  day : Nat
  month : Nat
  year : Nat
deriving DecidableEq

/-- `roman_date` from `utilities.py`. -/
def roman_date (today : RDate) : Chars :=
  num2roman today.day ++ ".".data ++ num2roman today.month ++ ".".data ++ num2roman today.year

/-- Python floats: exact rationals plus the IEEE special values.  Signed zero
is not distinguished and rounding of in-range finite results is not modelled;
overflow of a finite result to a signed infinity happens at magnitude `FMAX`. -/
inductive FloatVal
  | finite (q : ℚ)
  | pinf
  | ninf
  | nan
deriving DecidableEq

/-- Least magnitude treated as an overflow to infinity (doubles overflow to
`inf` just below `2 ^ 1024`). -/
def FMAX : ℚ := ((2 ^ 1024 : ℕ) : ℚ)

/-- Clamp an exact finite result into the float domain. -/
def mkFinite (q : ℚ) : FloatVal :=
  if FMAX ≤ q then .pinf else if q ≤ -FMAX then .ninf else .finite q

/-- Python `math.isinf`. -/
def FloatVal.isinf : FloatVal → Bool
  | .pinf => true
  | .ninf => true
  | _ => false

/-- Python `float.is_integer()` (false on `inf`, `-inf` and `nan`). -/
def FloatVal.is_integer : FloatVal → Bool
  | .finite q => q.den == 1
  | _ => false

/-- Python `a + b` on floats. -/
def fadd : FloatVal → FloatVal → FloatVal
  | .nan, _ => .nan
  | _, .nan => .nan
  | .pinf, .ninf => .nan
  | .ninf, .pinf => .nan
  | .pinf, _ => .pinf
  | _, .pinf => .pinf
  | .ninf, _ => .ninf
  | _, .ninf => .ninf
  | .finite a, .finite b => mkFinite (a + b)

/-- Python `a - b` on floats. -/
def fsub : FloatVal → FloatVal → FloatVal
  | .nan, _ => .nan
  | _, .nan => .nan
  | .pinf, .pinf => .nan
  | .ninf, .ninf => .nan
  | .pinf, _ => .pinf
  | _, .pinf => .ninf
  | .ninf, _ => .ninf
  | _, .ninf => .pinf
  | .finite a, .finite b => mkFinite (a - b)

/-- Python `a * b` on floats. -/
def fmul : FloatVal → FloatVal → FloatVal
  | .nan, _ => .nan
  | _, .nan => .nan
  | .pinf, .pinf => .pinf
  | .pinf, .ninf => .ninf
  | .ninf, .pinf => .ninf
  | .ninf, .ninf => .pinf
  | .pinf, .finite b => if b = 0 then .nan else if 0 < b then .pinf else .ninf
  | .finite a, .pinf => if a = 0 then .nan else if 0 < a then .pinf else .ninf
  | .ninf, .finite b => if b = 0 then .nan else if 0 < b then .ninf else .pinf
  | .finite a, .ninf => if a = 0 then .nan else if 0 < a then .ninf else .pinf
  | .finite a, .finite b => mkFinite (a * b)

/-- The exceptions `main_menu` distinguishes.  `KeyboardInterrupt` is handled
identically to `EOFError` in the source and is folded into `eofError`. -/
inductive PyErr
  | keyError (msg : String)
  | zeroDivisionError
  | overflowError
  | valueError (msg : String)
  | eofError
  | exception (msg : String)
deriving DecidableEq

/-- Python `a / b` on floats: a zero divisor raises `ZeroDivisionError`
whatever the dividend is. -/
def fdiv : FloatVal → FloatVal → Except PyErr FloatVal
  | x, .finite b =>
    if b = 0 then .error .zeroDivisionError
    else .ok (match x with
      | .nan => .nan
      | .pinf => if 0 < b then .pinf else .ninf
      | .ninf => if 0 < b then .ninf else .pinf
      | .finite a => mkFinite (a / b))
  | _, .nan => .ok .nan
  | .nan, _ => .ok .nan
  | .pinf, _ => .ok .nan
  | .ninf, _ => .ok .nan
  | .finite _, _ => .ok (.finite 0)

/-- `addition` from `advance_calc.py`. -/
def addition (addend1 addend2 : FloatVal) : Except PyErr FloatVal :=
  let sum_ := fadd addend1 addend2
  if sum_.isinf then .error .overflowError else .ok sum_

/-- `subtraction` from `advance_calc.py`. -/
def subtraction (minuend subtrahend : FloatVal) : Except PyErr FloatVal :=
  let difference_ := fsub minuend subtrahend
  if difference_.isinf then .error .overflowError else .ok difference_

/-- `multiplication` from `advance_calc.py`. -/
def multiplication (factor1 factor2 : FloatVal) : Except PyErr FloatVal :=
  let product_ := fmul factor1 factor2
  if product_.isinf then .error .overflowError else .ok product_

/-- `division` from `advance_calc.py`. -/
def division (dividend divisor : FloatVal) : Except PyErr FloatVal :=
  match fdiv dividend divisor with
  | .error e => .error e
  | .ok quotient_ => if quotient_.isinf then .error .overflowError else .ok quotient_

/-- Split a string at the first occurrence of `sep`, if any. -/
def splitFirst (sep : Char) : Chars → Option (Chars × Chars)
  | [] => none
  | c :: cs =>
    if c = sep then some ([], cs)
    else match splitFirst sep cs with
      | none => none
      | some (l, r) => some (c :: l, r)

/-- Value of an all-digit string. -/
def digitsVal (s : Chars) : Nat := s.foldl (fun a c => 10 * a + (c.toNat - 48)) 0

/-- Exponent part of a float literal: optional sign, then nonempty digits. -/
def parseExp : Option Chars → Option ℤ
  | none => some 0
  | some ('+' :: ds) =>
    if ds ≠ [] ∧ ds.all Char.isDigit then some ((digitsVal ds : ℤ)) else none
  | some ('-' :: ds) =>
    if ds ≠ [] ∧ ds.all Char.isDigit then some (-(digitsVal ds : ℤ)) else none
  | some ds =>
    if ds ≠ [] ∧ ds.all Char.isDigit then some ((digitsVal ds : ℤ)) else none

/-- Python `float(s)` on the lower-cased strings this program can pass it:
whitespace padding, an optional sign, `inf`/`infinity`/`nan`, or a decimal
literal with optional fraction and exponent (digit-group underscores are not
modelled).  A literal whose magnitude reaches `FMAX` parses to an infinity,
as `float("1e400")` does. -/
def pyFloat (s : Chars) : Option FloatVal :=
  let t := pyStrip s
  let sgn : Bool × Chars :=
    match t with
    | '+' :: r => (false, r)
    | '-' :: r => (true, r)
    | _ => (false, t)
  let neg := sgn.1
  let u := sgn.2
  if u = "inf".data ∨ u = "infinity".data then some (if neg then .ninf else .pinf)
  else if u = "nan".data then some .nan
  else
    let me : Chars × Option Chars :=
      match splitFirst 'e' u with
      | none => (u, none)
      | some (m, e) => (m, some e)
    let ifp : Chars × Chars :=
      match splitFirst '.' me.1 with
      | none => (me.1, [])
      | some (i, f) => (i, f)
    match parseExp me.2 with
    | none => none
    | some ev =>
      if ifp.1.all Char.isDigit ∧ ifp.2.all Char.isDigit ∧ (ifp.1 ≠ [] ∨ ifp.2 ≠ []) then
        let mant : Nat := digitsVal ifp.1 * 10 ^ ifp.2.length + digitsVal ifp.2
        let e : ℤ := ev - ifp.2.length
        let sgn : ℤ := if neg then -1 else 1
        let mag : ℚ :=
          if 0 ≤ e then mkRat (sgn * mant * 10 ^ e.toNat) 1
          else mkRat (sgn * mant) (10 ^ (-e).toNat)
        some (mkFinite mag)
      else none

/-- Stand-in for Python's float-to-text rendering inside log messages: the
shortest-round-trip decimal form is not reproduced, a definite
numerator/denominator form is used instead.  No claim inspects these digits. -/
def pyRepr : FloatVal → Chars
  | .finite q => (if q < 0 then "-".data else []) ++ pyStr q.num.natAbs ++ "/".data ++ pyStr q.den
  | .pinf => "inf".data
  | .ninf => "-inf".data
  | .nan => "nan".data

/-- Python float `==` (NaN compares unequal to everything, itself included). -/
def pyEq : FloatVal → FloatVal → Bool
  | .finite a, .finite b => a == b
  | .pinf, .pinf => true
  | .ninf, .ninf => true
  | _, _ => false

/-- Python float `<=` (false whenever NaN is involved). -/
def pyLe : FloatVal → FloatVal → Bool
  | .nan, _ => false
  | _, .nan => false
  | .ninf, _ => true
  | _, .pinf => true
  | .pinf, _ => false
  | _, .ninf => false
  | .finite a, .finite b => a ≤ b

/-- Python float `<` (false whenever NaN is involved). -/
def pyLt : FloatVal → FloatVal → Bool
  | .nan, _ => false
  | _, .nan => false
  | .ninf, .ninf => false
  | .pinf, .pinf => false
  | .ninf, _ => true
  | _, .pinf => true
  | .pinf, _ => false
  | _, .ninf => false
  | .finite a, .finite b => a < b

/-- The log file: its text and whether it has been closed.  The `a+` handle of
the script is reduced to the content it exposes; seeks are reflected in the
pure read functions. -/
structure PyFile where
  content : Chars
  closed : Bool
deriving DecidableEq

/-- Python `file.writelines(lines)`.  `upload_log` also passes one plain
string, which `writelines` iterates character by character; the effect is the
same appended text, so that call site is modelled as a one-element list. -/
def writelines (f : PyFile) (lines : List Chars) : PyFile :=
  { f with content := f.content ++ lines.flatten }

/-- Python `file.close()`. -/
def pyClose (f : PyFile) : PyFile := { f with closed := true }

/-- `initialisation` from `advance_calc.py`: read the Morse count off the
first line (an empty first line decodes as 0), reread every line past the
first as the old log, then truncate.  The returned file reflects
`log.truncate(0)`; `none` models an exception escaping `morse2num`. -/
def initialisation (log : PyFile) (is_new_file : Bool) :
    Option (List Chars × Nat × PyFile) :=
  if !is_new_file then
    let old_calc_msg := pyRstrip ((pyReadline log.content).drop 20)
    let count? := if old_calc_msg ≠ [] then morse2num old_calc_msg else some 0
    match count? with
    | none => none
    | some old_calc_count =>
      some ((pyLinesKeepEnds log.content).drop 1, old_calc_count, { log with content := [] })
  else
    some ([], 0, { log with content := [] })

/-- The header-line prefix of the log file (20 characters). -/
def TOTAL_PREFIX : Chars := "Total calculations: ".data

/-- `upload_log` from `advance_calc.py`. -/
def upload_log (log : PyFile) (new_log old_log : List Chars)
    (new_calc_count old_calc_count : Nat) : PyFile :=
  let total_calc_msg :=
    TOTAL_PREFIX ++ num2morse (new_calc_count + old_calc_count) ++ ['\n']
  let log1 := writelines log [total_calc_msg]
  let log2 := writelines log1 old_log
  let log3 := writelines log2 new_log
  pyClose log3

/-- The session state `main_menu` accumulates. -/
structure SessState where
  new_log : List Chars
  new_calc_count : Nat
deriving DecidableEq

/-- `valid_float_input` from `advance_calc.py`, reading from a script of input
lines.  The error models the exception leaving the function: `EOFError` when
the script is exhausted, `Exception("Quit User Input")` on the exit token; an
unparsable non-exit line prints a message and reads again. -/
def valid_float_input : List Chars → Except PyErr FloatVal × List Chars
  | [] => (.error .eofError, [])
  | s :: rest =>
    let strInput := pyLower s
    match pyFloat strInput with
    | some v => (.ok v, rest)
    | none =>
      if strInput = "x".data ∨ strInput = "exit".data then
        (.error (.exception "Quit User Input"), rest)
      else valid_float_input rest

/-- `running_confirmation` from `advance_calc.py`: re-prompt until one of
`y`/`n`/`yes`/`no`, then answer true exactly when the user declined to exit. -/
def running_confirmation : List Chars → Except PyErr Bool × List Chars
  | [] => (.error .eofError, [])
  | s :: rest =>
    let confirmation := pyLower s
    if confirmation = "y".data ∨ confirmation = "n".data ∨
        confirmation = "yes".data ∨ confirmation = "no".data then
      (.ok (confirmation = "n".data ∨ confirmation = "no".data : Bool), rest)
    else running_confirmation rest

/-- Message of the `KeyError` raised by `formatting_submenu`. -/
def SUBMENU_KEY_MSG : String := "That is not a submenu option!"

/-- Message of the `ValueError` from `int()` on NaN inside `dec2sex`
(submenu option 3 on a NaN result). -/
def NAN_INT_MSG : String := "cannot convert float NaN to integer"

/-- Message of the `ValueError` from `Fraction()` on NaN (submenu option 4 on
a NaN result). -/
def NAN_RATIO_MSG : String := "cannot convert NaN to integer ratio"

/-- The `formatting_submenu` loop body.  Options 1 and 2 only print; option 3
(`dec2sex`) and option 4 (`Fraction(result)`) raise `ValueError` on a NaN
result and `OverflowError` on an infinite one before printing; option 9 runs
the exit confirmation; anything else raises `KeyError`, which leaves the
function.  The fuel bounds the iteration count; `formatting_submenu` passes
the script length, enough because every iteration consumes at least one line. -/
def formatting_submenuGo (result : FloatVal) (is_fraction : Bool) :
    Nat → List Chars → Except PyErr Unit × List Chars
  | _, [] => (.error .eofError, [])
  | 0, rest => (.error .eofError, rest)
  | fuel + 1, s :: rest =>
    if s = "1".data then formatting_submenuGo result is_fraction fuel rest
    else if s = "2".data then formatting_submenuGo result is_fraction fuel rest
    else if s = "3".data then
      match result with
      | .finite _ => formatting_submenuGo result is_fraction fuel rest
      | .nan => (.error (.valueError NAN_INT_MSG), rest)
      | _ => (.error .overflowError, rest)
    else if s = "4".data ∧ is_fraction = true then
      match result with
      | .finite _ => formatting_submenuGo result is_fraction fuel rest
      | .nan => (.error (.valueError NAN_RATIO_MSG), rest)
      | _ => (.error .overflowError, rest)
    else if s = "9".data then
      match running_confirmation rest with
      | (.error e, r) => (.error e, r)
      | (.ok submenu_running, r) =>
        if submenu_running then formatting_submenuGo result is_fraction fuel r
        else (.ok (), r)
    else (.error (.keyError SUBMENU_KEY_MSG), rest)

/-- `formatting_submenu` from `advance_calc.py`. -/
def formatting_submenu (result : FloatVal) (is_fraction : Bool)
    (inputs : List Chars) : Except PyErr Unit × List Chars :=
  formatting_submenuGo result is_fraction inputs.length inputs

/-- Messages of the three `ValueError`s of the triangle branch. -/
def SUM_MSG : String := "Invalid triangle! Angle sum of triangle must equal to 180˚."

def POS_MSG : String := "Invalid triangle! All angles must be bigger than 0˚."

def MIN_MSG : String := "Minimum angle accepted is 5˚for the triangle to display properly."

/-- The triangle-angle validation of the `DRAW_TRIANGLE` branch of
`main_menu`: the three `raise ValueError` checks in source order, with Python
float comparison semantics (`!=` is true and `<=`/`<` are false on NaN). -/
def validate_triangle (new_angle1 new_angle2 new_angle3 : FloatVal) : Except PyErr Unit :=
  if !(pyEq (fadd (fadd new_angle1 new_angle2) new_angle3) (.finite 180)) then
    .error (.valueError SUM_MSG)
  else if pyLe new_angle1 (.finite 0) || pyLe new_angle2 (.finite 0) ||
      pyLe new_angle3 (.finite 0) then
    .error (.valueError POS_MSG)
  else if pyLt new_angle1 (.finite 5) || pyLt new_angle2 (.finite 5) ||
      pyLt new_angle3 (.finite 5) then
    .error (.valueError MIN_MSG)
  else .ok ()

/-- Outcome of one iteration of the `main_menu` `while` loop: continue looping
(recording which exception the `except` arms caught, if any), stop normally
(`menu_running` became false), or break out of the loop
(`EOFError`/`KeyboardInterrupt`). -/
inductive StepResult
  | cont (st : SessState) (rest : List Chars) (caught : Option PyErr)
  | halt (st : SessState) (rest : List Chars)
  | brk (st : SessState)
deriving DecidableEq

/-- The `except` arms of `main_menu`: `EOFError`/`KeyboardInterrupt` break the
loop; every other modelled exception is reported (or, for the quit-input
signal, swallowed) and the loop continues. -/
def dispatch (st : SessState) (e : PyErr) (rest : List Chars) : StepResult :=
  match e with
  | .eofError => .brk st
  | e => .cont st rest (some e)

/-- Message of the `KeyError` raised on an unknown main-menu selection. -/
def MAIN_KEY_MSG : String := "That is not a main menu option!"

/-- One arithmetic branch of `main_menu`: read two operands, run the
operation, print and log `calc_msg`, bump the counter, then run the
formatting submenu.  The four branches of the source differ only in the
operation, the operand prompts and the symbol interpolated into `calc_msg`. -/
def arithBranch (st : SessState) (today : RDate)
    (op : FloatVal → FloatVal → Except PyErr FloatVal) (sym : Chars)
    (inputs : List Chars) : StepResult :=
  match valid_float_input inputs with
  | (.error e, r) => dispatch st e r
  | (.ok x, r1) =>
    match valid_float_input r1 with
    | (.error e, r) => dispatch st e r
    | (.ok y, r2) =>
      match op x y with
      | .error e => dispatch st e r2
      | .ok new_result =>
        let calc_msg :=
          "Calculation ".data ++ pyRepr x ++ [' '] ++ sym ++ [' '] ++ pyRepr y ++
            " = ".data ++ pyRepr new_result
        let st' : SessState :=
          ⟨st.new_log ++ ["Timestamp ".data ++ roman_date today ++ [' '] ++ calc_msg ++ ['\n']],
            st.new_calc_count + 1⟩
        match formatting_submenu new_result (!new_result.is_integer) r2 with
        | (.ok _, r3) => .cont st' r3 none
        | (.error e, r3) => dispatch st' e r3

/-- One iteration of the `main_menu` loop body, from reading the menu
selection through the end of the `try`/`except` block.  `draw_triangle`
(module `triangle.py`) only renders an image file and prints side lengths; it
touches no session state, so its call is not reflected in the result. -/
def menuStep (st : SessState) (today : RDate) : List Chars → StepResult
  | [] => .brk st
  | user_selection :: rest =>
    if user_selection = "1".data then arithBranch st today addition "+".data rest
    else if user_selection = "2".data then arithBranch st today subtraction "-".data rest
    else if user_selection = "3".data then
      arithBranch st today multiplication [Char.ofNat 215] rest
    else if user_selection = "4".data then
      arithBranch st today division [Char.ofNat 247] rest
    else if user_selection = "5".data then
      match valid_float_input rest with
      | (.error e, r) => dispatch st e r
      | (.ok a1, r1) =>
        match valid_float_input r1 with
        | (.error e, r) => dispatch st e r
        | (.ok a2, r2) =>
          match valid_float_input r2 with
          | (.error e, r) => dispatch st e r
          | (.ok a3, r3) =>
            match validate_triangle a1 a2 a3 with
            | .error e => dispatch st e r3
            | .ok _ => .cont st r3 none
    else if user_selection = "9".data then
      match running_confirmation rest with
      | (.error e, r) => dispatch st e r
      | (.ok menu_running, r) => if menu_running then .cont st r none else .halt st r
    else dispatch st (.keyError MAIN_KEY_MSG) rest

/-- The `main_menu` loop.  The fuel is the script length, enough because every
iteration that continues consumes at least the selection line. -/
def main_menuGo (today : RDate) : Nat → SessState → List Chars → SessState
  | 0, st, _ => st
  | fuel + 1, st, inputs =>
    match menuStep st today inputs with
    | .brk st' => st'
    | .halt st' _ => st'
    | .cont st' rest _ => main_menuGo today fuel st' rest

/-- `main_menu` from `advance_calc.py`: the accumulated
`(new_log, new_calc_count)` when the loop ends. -/
def main_menu (today : RDate) (inputs : List Chars) : SessState :=
  main_menuGo today inputs.length ⟨[], 0⟩ inputs

/-- The state carried by a step outcome. -/
def stepState : StepResult → SessState
  | .cont st _ _ => st
  | .halt st _ => st
  | .brk st => st

deriving instance DecidableEq for Except

attribute [local semireducible] Rat.add Rat.sub Rat.mul Rat.inv

/-- Space-separated join: the normal form of `num2morse` output used by the
round-trip proofs. -/
def joinSep : List Chars → Chars
  | [] => []
  | [t] => t
  | t :: t2 :: ts => t ++ ' ' :: joinSep (t2 :: ts)

/-- A well-formed `split` token: nonempty and whitespace-free. -/
def isTok (t : Chars) : Prop := t ≠ [] ∧ ∀ c ∈ t, isPySpace c = false

/-- A well-formed log record: one text line ending in its newline. -/
def isRecordLine (r : Chars) : Prop := ∃ body, r = body ++ ['\n'] ∧ '\n' ∉ body

/-! Auxiliary list lemmas. -/

theorem takeWhile_eq_self {p : Char → Bool} (l : Chars) (h : ∀ c ∈ l, p c = true) :
    l.takeWhile p = l := by
  induction l with
  | nil => rfl
  | cons a t ih =>
    have ha := h a (List.mem_cons_self a t)
    simp only [List.takeWhile_cons, ha, if_true]
    exact congrArg (a :: ·) (ih fun c hc => h c (List.mem_cons_of_mem a hc))

theorem dropWhile_eq_nil {p : Char → Bool} (l : Chars) (h : ∀ c ∈ l, p c = true) :
    l.dropWhile p = [] := by
  induction l with
  | nil => rfl
  | cons a t ih =>
    have ha := h a (List.mem_cons_self a t)
    simp only [List.dropWhile_cons, ha, if_true]
    exact ih fun c hc => h c (List.mem_cons_of_mem a hc)

theorem takeWhile_append_stop {p : Char → Bool} (l : Chars) (x : Char) (xs : Chars)
    (h : ∀ c ∈ l, p c = true) (hx : p x = false) :
    (l ++ x :: xs).takeWhile p = l := by
  induction l with
  | nil => simp [List.takeWhile_cons, hx]
  | cons a t ih =>
    have ha := h a (List.mem_cons_self a t)
    simp only [List.cons_append, List.takeWhile_cons, ha, if_true]
    exact congrArg (a :: ·) (ih fun c hc => h c (List.mem_cons_of_mem a hc))

theorem dropWhile_append_stop {p : Char → Bool} (l : Chars) (x : Char) (xs : Chars)
    (h : ∀ c ∈ l, p c = true) (hx : p x = false) :
    (l ++ x :: xs).dropWhile p = x :: xs := by
  induction l with
  | nil => simp [List.dropWhile_cons, hx]
  | cons a t ih =>
    have ha := h a (List.mem_cons_self a t)
    simp only [List.cons_append, List.dropWhile_cons, ha, if_true]
    exact ih fun c hc => h c (List.mem_cons_of_mem a hc)

theorem mem_of_head? {l : Chars} {c : Char} (h : l.head? = some c) : c ∈ l := by
  cases l with
  | nil => simp at h
  | cons a t => simp at h; simp [h]

theorem head?_append_left {l r : Chars} (h : l ≠ []) : (l ++ r).head? = l.head? := by
  cases l with
  | nil => exact absurd rfl h
  | cons a t => rfl

/-! Lemmas about `pySplit` over space-joined tokens. -/

theorem pySplitGo_nil (fuel : Nat) : pySplitGo fuel [] = [] := by
  cases fuel <;> rfl

theorem joinSep_split (ts : List Chars) :
    ∀ fuel : Nat, (∀ t ∈ ts, isTok t) → (joinSep ts).length ≤ fuel →
      pySplitGo fuel (joinSep ts) = ts := by
  induction ts with
  | nil => intro fuel _ _; simpa [joinSep] using pySplitGo_nil fuel
  | cons t ts ih =>
    intro fuel hts hlen
    obtain ⟨hne, hsp⟩ := hts t (List.mem_cons_self t ts)
    obtain ⟨a, tb, rfl⟩ : ∃ a tb, t = a :: tb := by
      cases t with
      | nil => exact absurd rfl hne
      | cons a tb => exact ⟨a, tb, rfl⟩
    have hpa : isPySpace a = false := hsp a (List.mem_cons_self a tb)
    have hall : ∀ c ∈ a :: tb, (fun x => !isPySpace x) c = true := by
      intro c hc; simp [hsp c hc]
    cases ts with
    | nil =>
      simp only [joinSep] at hlen ⊢
      cases fuel with
      | zero => simp at hlen
      | succ f =>
        simp only [pySplitGo, hpa, Bool.false_eq_true, if_false]
        rw [takeWhile_eq_self _ hall, dropWhile_eq_nil _ hall, pySplitGo_nil]
    | cons t2 ts2 =>
      simp only [joinSep] at hlen ⊢
      cases fuel with
      | zero => simp at hlen
      | succ f =>
        have ht : ((a :: tb) ++ ' ' :: joinSep (t2 :: ts2)).takeWhile (fun x => !isPySpace x)
            = a :: tb := takeWhile_append_stop _ _ _ hall (by decide)
        have hd : ((a :: tb) ++ ' ' :: joinSep (t2 :: ts2)).dropWhile (fun x => !isPySpace x)
            = ' ' :: joinSep (t2 :: ts2) := dropWhile_append_stop _ _ _ hall (by decide)
        simp only [List.cons_append, pySplitGo, hpa, Bool.false_eq_true, if_false,
          List.append_eq]
        simp only [List.cons_append] at ht hd
        rw [ht, hd]
        have hlf : (joinSep (t2 :: ts2)).length + 1 ≤ f := by
          simp only [List.cons_append, List.length_append, List.length_cons] at hlen
          omega
        cases f with
        | zero => omega
        | succ f2 =>
          simp only [pySplitGo, show isPySpace ' ' = true from rfl, if_true]
          rw [ih f2 (fun u hu => hts u (List.mem_cons_of_mem _ hu)) (by omega)]

theorem pySplit_joinSep (ts : List Chars) (h : ∀ t ∈ ts, isTok t) :
    pySplit (joinSep ts) = ts :=
  joinSep_split ts _ h le_rfl

/-! Strip lemmas. -/

theorem pyLstrip_of_head (l : Chars)
    (h : ∀ c, l.head? = some c → isPySpace c = false) : pyLstrip l = l := by
  cases l with
  | nil => rfl
  | cons a t =>
    have ha := h a rfl
    simp [pyLstrip, List.dropWhile_cons, ha]

theorem pyRstrip_append_space (l : Chars) (c : Char) (hc : isPySpace c = true)
    (h : ∀ d, l.reverse.head? = some d → isPySpace d = false) :
    pyRstrip (l ++ [c]) = l := by
  unfold pyRstrip
  rw [List.reverse_append]
  simp only [List.reverse_cons, List.reverse_nil, List.nil_append, List.singleton_append,
    List.dropWhile_cons, hc, if_true]
  cases hrev : l.reverse with
  | nil =>
    have : l = [] := by simpa using congrArg List.reverse hrev
    simp [this]
  | cons d r =>
    have hd := h d (by rw [hrev]; rfl)
    rw [List.dropWhile_cons, if_neg (by simp [hd])]
    rw [← hrev, List.reverse_reverse]

/-! Facts about `joinSep` of well-formed tokens. -/

theorem joinSep_ne_nil (ts : List Chars) (h0 : ts ≠ []) (h : ∀ t ∈ ts, isTok t) :
    joinSep ts ≠ [] := by
  cases ts with
  | nil => exact absurd rfl h0
  | cons t ts =>
    have hne := (h t (List.mem_cons_self t ts)).1
    cases ts with
    | nil => simpa [joinSep] using hne
    | cons t2 ts2 =>
      simp only [joinSep]
      intro hcontra
      rcases List.append_eq_nil.mp hcontra with ⟨_, h2⟩
      simp at h2

theorem joinSep_head (ts : List Chars) (h : ∀ t ∈ ts, isTok t) :
    ∀ c, (joinSep ts).head? = some c → isPySpace c = false := by
  intro c hc
  cases ts with
  | nil => simp [joinSep] at hc
  | cons t ts =>
    obtain ⟨hne, hsp⟩ := h t (List.mem_cons_self t ts)
    obtain ⟨a, tb, rfl⟩ : ∃ a tb, t = a :: tb := by
      cases t with
      | nil => exact absurd rfl hne
      | cons a tb => exact ⟨a, tb, rfl⟩
    cases ts with
    | nil =>
      simp only [joinSep, List.head?_cons] at hc
      have hac : a = c := by simpa using hc
      exact hac ▸ hsp a (List.mem_cons_self a tb)
    | cons t2 ts2 =>
      simp only [joinSep, List.cons_append, List.head?_cons] at hc
      have hac : a = c := by simpa using hc
      exact hac ▸ hsp a (List.mem_cons_self a tb)

theorem joinSep_revhead (ts : List Chars) (h : ∀ t ∈ ts, isTok t) :
    ∀ c, (joinSep ts).reverse.head? = some c → isPySpace c = false := by
  induction ts with
  | nil => intro c hc; simp [joinSep] at hc
  | cons t ts ih =>
    intro c hc
    obtain ⟨hne, hsp⟩ := h t (List.mem_cons_self t ts)
    cases ts with
    | nil =>
      simp only [joinSep] at hc
      exact hsp c (List.mem_reverse.mp (mem_of_head? hc))
    | cons t2 ts2 =>
      simp only [joinSep, List.reverse_append, List.reverse_cons] at hc
      have hJne : joinSep (t2 :: ts2) ≠ [] :=
        joinSep_ne_nil _ (by simp) (fun u hu => h u (List.mem_cons_of_mem _ hu))
      have hrevne : (joinSep (t2 :: ts2)).reverse ≠ [] := by
        simpa using hJne
      rw [List.append_assoc, head?_append_left hrevne] at hc
      exact ih (fun u hu => h u (List.mem_cons_of_mem _ hu)) c hc

theorem mem_joinSep (ts : List Chars) (c : Char) :
    c ∈ joinSep ts → c = ' ' ∨ ∃ t ∈ ts, c ∈ t := by
  induction ts with
  | nil => intro hc; simp [joinSep] at hc
  | cons t ts ih =>
    intro hc
    cases ts with
    | nil =>
      simp only [joinSep] at hc
      exact Or.inr ⟨t, List.mem_cons_self t [], hc⟩
    | cons t2 ts2 =>
      simp only [joinSep, List.mem_append, List.mem_cons] at hc
      rcases hc with ht | hsp | hrest
      · exact Or.inr ⟨t, List.mem_cons_self _ _, ht⟩
      · exact Or.inl hsp
      · rcases ih hrest with hsp2 | ⟨u, hu, hcu⟩
        · exact Or.inl hsp2
        · exact Or.inr ⟨u, List.mem_cons_of_mem _ hu, hcu⟩

/-! The `cipher` accumulation of `num2morse` in closed form. -/

theorem foldl_append_flatten (f : Char → Chars) (l : Chars) :
    ∀ init : Chars,
      l.foldl (fun cipher digit => cipher ++ (f digit ++ [' '])) init =
        init ++ (l.map (fun digit => f digit ++ [' '])).flatten := by
  induction l with
  | nil => intro init; simp
  | cons a t ih =>
    intro init
    simp only [List.foldl_cons, List.map_cons, List.flatten_cons, ih, List.append_assoc]

theorem joinTrail_eq (ts : List Chars) (h0 : ts ≠ []) :
    (ts.map (fun t => t ++ [' '])).flatten = joinSep ts ++ [' '] := by
  induction ts with
  | nil => exact absurd rfl h0
  | cons t ts ih =>
    cases ts with
    | nil => simp [joinSep]
    | cons t2 ts2 =>
      calc (List.map (fun u => u ++ [' ']) (t :: t2 :: ts2)).flatten
          = (t ++ [' ']) ++ (List.map (fun u => u ++ [' ']) (t2 :: ts2)).flatten := by
            simp
        _ = (t ++ [' ']) ++ (joinSep (t2 :: ts2) ++ [' ']) := by rw [ih (by simp)]
        _ = joinSep (t :: t2 :: ts2) ++ [' '] := by
            simp [joinSep, List.append_assoc]

/-! Decimal digit facts. -/

theorem natDigitsGo_eq (fuel : Nat) :
    ∀ n : Nat, n < fuel →
      natDigitsGo fuel n =
        if n = 0 then ['0']
        else ((Nat.digits 10 n).reverse).map (fun d => Char.ofNat (48 + d)) := by
  induction fuel with
  | zero => intro n h; omega
  | succ f ih =>
    intro n h
    by_cases h10 : n < 10
    · by_cases h0 : n = 0
      · subst h0; simp [natDigitsGo]
      · have hdig : Nat.digits 10 n = [n] := by
          rw [Nat.digits_def' (by norm_num : 1 < 10) (Nat.pos_of_ne_zero h0)]
          simp [Nat.div_eq_of_lt h10, Nat.mod_eq_of_lt h10]
        simp [natDigitsGo, h10, h0, hdig]
    · have hge : 10 ≤ n := le_of_not_lt h10
      have hn0 : n ≠ 0 := by omega
      have hq0 : n / 10 ≠ 0 := by
        have : 1 ≤ n / 10 := (Nat.one_le_div_iff (by norm_num)).mpr hge
        omega
      have hrec : n / 10 < f := by
        have h1 : n / 10 < n := Nat.div_lt_self (by omega) (by norm_num)
        omega
      rw [show natDigitsGo (f + 1) n
          = natDigitsGo f (n / 10) ++ [Char.ofNat (48 + n % 10)] from by
        simp [natDigitsGo, h10]]
      rw [ih _ hrec, if_neg hq0, if_neg hn0]
      rw [Nat.digits_def' (by norm_num : 1 < 10) (Nat.pos_of_ne_zero hn0)]
      simp [List.reverse_cons, List.map_append]

theorem pyStr_eq (n : Nat) :
    pyStr n =
      if n = 0 then ['0']
      else ((Nat.digits 10 n).reverse).map (fun d => Char.ofNat (48 + d)) :=
  natDigitsGo_eq (n + 1) n (by omega)

theorem pyStr_ne_nil (n : Nat) : pyStr n ≠ [] := by
  rw [pyStr_eq]
  by_cases h0 : n = 0
  · simp [h0]
  · have : Nat.digits 10 n ≠ [] := Nat.digits_ne_nil_iff_ne_zero.mpr h0
    simp [h0, this]

theorem pyStr_mem (n : Nat) :
    ∀ c ∈ pyStr n, ∃ d, d < 10 ∧ c = Char.ofNat (48 + d) := by
  intro c hc
  rw [pyStr_eq] at hc
  by_cases h0 : n = 0
  · simp [h0] at hc
    exact ⟨0, by norm_num, hc.trans (by decide)⟩
  · rw [if_neg h0] at hc
    rcases List.mem_map.mp hc with ⟨d, hd, rfl⟩
    have hdlt : d < 10 :=
      Nat.digits_lt_base (by norm_num) (List.mem_reverse.mp hd)
    exact ⟨d, hdlt, rfl⟩

/-- The ten digits: code nonempty, whitespace- and newline-free, dictionary
round trip, digit character class, and character value. -/
theorem digit_facts (d : Nat) (hd : d < 10) :
    NUM2MORSE_DICT (Char.ofNat (48 + d)) ≠ [] ∧
      (∀ ch ∈ NUM2MORSE_DICT (Char.ofNat (48 + d)),
        isPySpace ch = false ∧ ch ≠ '\n') ∧
      MORSE2NUM_DICT (NUM2MORSE_DICT (Char.ofNat (48 + d))) = some (Char.ofNat (48 + d)) ∧
      Char.isDigit (Char.ofNat (48 + d)) = true ∧
      (Char.ofNat (48 + d)).toNat - 48 = d := by
  interval_cases d <;> exact (by decide)

theorem pyStr_tokens (n : Nat) :
    ∀ t ∈ (pyStr n).map NUM2MORSE_DICT, isTok t := by
  intro t ht
  rcases List.mem_map.mp ht with ⟨c, hc, rfl⟩
  rcases pyStr_mem n c hc with ⟨d, hdlt, rfl⟩
  rcases digit_facts d hdlt with ⟨hne, hch, _⟩
  exact ⟨hne, fun ch hch2 => (hch ch hch2).1⟩

theorem num2morse_eq_joinSep (n : Nat) :
    num2morse n = joinSep ((pyStr n).map NUM2MORSE_DICT) := by
  unfold num2morse
  rw [foldl_append_flatten]
  rw [show (fun digit => NUM2MORSE_DICT digit ++ [' '])
      = ((fun t => t ++ [' ']) ∘ NUM2MORSE_DICT) from rfl]
  rw [← List.map_map]
  have hmapne : (pyStr n).map NUM2MORSE_DICT ≠ [] := by
    simp [pyStr_ne_nil n]
  rw [joinTrail_eq _ hmapne]
  simp only [List.nil_append]
  unfold pyStrip
  rw [pyRstrip_append_space _ _ (by decide) (joinSep_revhead _ (pyStr_tokens n))]
  exact pyLstrip_of_head _ (joinSep_head _ (pyStr_tokens n))

theorem decipherAll_map (ds : Chars)
    (h : ∀ c ∈ ds, MORSE2NUM_DICT (NUM2MORSE_DICT c) = some c) :
    decipherAll (ds.map NUM2MORSE_DICT) = some ds := by
  induction ds with
  | nil => rfl
  | cons a t ih =>
    simp only [List.map_cons, decipherAll, h a (List.mem_cons_self a t)]
    rw [ih fun c hc => h c (List.mem_cons_of_mem a hc)]

theorem foldl_base10 (L : List Nat) :
    ∀ a : Nat, L.reverse.foldl (fun x d => 10 * x + d) a = a * 10 ^ L.length + Nat.ofDigits 10 L := by
  induction L with
  | nil => intro a; simp [Nat.ofDigits]
  | cons d L ih =>
    intro a
    rw [List.reverse_cons, List.foldl_append, ih]
    simp only [List.foldl_cons, List.foldl_nil, Nat.ofDigits_cons, List.length_cons]
    ring

theorem foldl_congr_mem {α β : Type} (l : List α) (f g : β → α → β)
    (h : ∀ b : β, ∀ x ∈ l, f b x = g b x) : ∀ a : β, l.foldl f a = l.foldl g a := by
  induction l with
  | nil => intro a; rfl
  | cons x t ih =>
    intro a
    simp only [List.foldl_cons, h a x (List.mem_cons_self x t)]
    exact ih (fun b y hy => h b y (List.mem_cons_of_mem x hy)) _

theorem pyInt_pyStr (n : Nat) : pyInt (pyStr n) = some n := by
  by_cases h0 : n = 0
  · subst h0; decide
  · rw [pyStr_eq, if_neg h0]
    have hdigs : ∀ d ∈ (Nat.digits 10 n).reverse, d < 10 := by
      intro d hd
      exact Nat.digits_lt_base (by norm_num) (List.mem_reverse.mp hd)
    have hall : ((Nat.digits 10 n).reverse.map (fun d => Char.ofNat (48 + d))).all
        Char.isDigit = true := by
      rw [List.all_eq_true]
      intro c hc
      rcases List.mem_map.mp hc with ⟨d, hd, rfl⟩
      exact (digit_facts d (hdigs d hd)).2.2.2.1
    have hne : (Nat.digits 10 n).reverse.map (fun d => Char.ofNat (48 + d)) ≠ [] := by
      have : Nat.digits 10 n ≠ [] := Nat.digits_ne_nil_iff_ne_zero.mpr h0
      simp [this]
    unfold pyInt
    rw [if_pos ⟨hne, hall⟩]
    congr 1
    rw [List.foldl_map]
    rw [foldl_congr_mem _ _ (fun x d => 10 * x + d)
      (by
        intro b d hd
        rcases digit_facts d (hdigs d hd) with ⟨_, _, _, _, hval⟩
        rw [hval])]
    rw [foldl_base10]
    simpa using Nat.ofDigits_digits 10 n

theorem morse2num_num2morse (n : Nat) : morse2num (num2morse n) = some n := by
  rw [num2morse_eq_joinSep]
  unfold morse2num
  rw [pySplit_joinSep _ (pyStr_tokens n)]
  rw [decipherAll_map _ (by
    intro c hc
    rcases pyStr_mem n c hc with ⟨d, hdlt, rfl⟩
    exact (digit_facts d hdlt).2.2.1)]
  exact pyInt_pyStr n

/-! Line lemmas for the log file. -/

theorem pyReadline_line (body rest : Chars) :
    '\n' ∉ body → pyReadline (body ++ '\n' :: rest) = body ++ ['\n'] := by
  induction body with
  | nil => intro _; simp [pyReadline]
  | cons a b ih =>
    intro h
    have ha : a ≠ '\n' := fun hcontra => h (hcontra ▸ List.mem_cons_self a b)
    simp only [List.cons_append, pyReadline, if_neg ha, List.append_eq]
    rw [ih fun hb => h (List.mem_cons_of_mem a hb)]

theorem pyLines_cons (body rest : Chars) :
    '\n' ∉ body →
      pyLinesKeepEnds (body ++ '\n' :: rest) = (body ++ ['\n']) :: pyLinesKeepEnds rest := by
  induction body with
  | nil => intro _; simp [pyLinesKeepEnds]
  | cons a b ih =>
    intro h
    have ha : a ≠ '\n' := fun hcontra => h (hcontra ▸ List.mem_cons_self a b)
    simp only [List.cons_append, pyLinesKeepEnds, if_neg ha, List.append_eq]
    rw [ih fun hb => h (List.mem_cons_of_mem a hb)]

theorem pyLines_flatten (rs : List Chars) :
    (∀ r ∈ rs, isRecordLine r) → pyLinesKeepEnds rs.flatten = rs := by
  induction rs with
  | nil => intro _; rfl
  | cons r rs ih =>
    intro h
    rcases h r (List.mem_cons_self r rs) with ⟨body, rfl, hnb⟩
    rw [List.flatten_cons, List.append_assoc, List.singleton_append, pyLines_cons _ _ hnb]
    rw [ih fun u hu => h u (List.mem_cons_of_mem _ hu)]

theorem newline_not_mem_num2morse (n : Nat) : '\n' ∉ num2morse n := by
  rw [num2morse_eq_joinSep]
  intro hmem
  rcases mem_joinSep _ _ hmem with hsp | ⟨t, ht, hct⟩
  · exact absurd hsp (by decide)
  · rcases List.mem_map.mp ht with ⟨ch, hch, rfl⟩
    rcases pyStr_mem n ch hch with ⟨d, hdlt, rfl⟩
    exact ((digit_facts d hdlt).2.1 _ hct).2 rfl

theorem num2morse_ne_nil (n : Nat) : num2morse n ≠ [] := by
  rw [num2morse_eq_joinSep]
  exact joinSep_ne_nil _ (by simp [pyStr_ne_nil n]) (pyStr_tokens n)

/-! Claim theorems: Morse inverse, Roman numerals, upload format, round trip. -/

/-- C5: `num2morse` and `morse2num` are mutual inverses on the non-negative
integers: for every `n`, decoding the space-joined five-symbol digit codes of
`n` returns exactly `n` (the `some` marks the absence of an exception). -/
theorem morse_roundtrip (n : Nat) : morse2num (num2morse n) = some n :=
  morse2num_num2morse n

/-- C9: `num2roman` renders 0 as the literal letter `N` and applies the
subtractive-notation table greedily, so 1994 renders as `MCMXCIV` and 3999 as
`MMMCMXCIX`. -/
theorem num2roman_values :
    num2roman 0 = "N".data ∧ num2roman 1994 = "MCMXCIV".data ∧
      num2roman 3999 = "MMMCMXCIX".data :=
  ⟨by decide, by decide, by decide⟩

/-- C2: `upload_log` writes exactly one header line — `Total calculations: `
followed by the Morse encoding of `new_calc_count + old_calc_count` and a
newline — then every old record verbatim in order, then every new record in
order, and closes the file. -/
theorem upload_log_writes (log : PyFile) (new_log old_log : List Chars)
    (new_calc_count old_calc_count : Nat) :
    upload_log log new_log old_log new_calc_count old_calc_count =
      ⟨log.content ++
        ((TOTAL_PREFIX ++ num2morse (new_calc_count + old_calc_count) ++ ['\n']) ++
          old_log.flatten ++ new_log.flatten),
        true⟩ := by
  simp [upload_log, writelines, pyClose, List.append_assoc]

/-- C1: log round trip.  Writing record lines `rs` under header count `c`
with `upload_log` (empty new list, so the header encodes `0 + c = c`) and
re-reading the resulting text with `initialisation` (pre-existing file) yields
back exactly the count `c` and the records `rs` in their original order. -/
theorem log_roundtrip (c : Nat) (rs : List Chars)
    (h : ∀ r ∈ rs, isRecordLine r) :
    initialisation ⟨(upload_log ⟨[], false⟩ [] rs 0 c).content, false⟩ false
      = some (rs, c, ⟨[], false⟩) := by
  have htok := pyStr_tokens c
  have hmne : num2morse c ≠ [] := num2morse_ne_nil c
  have hbody : '\n' ∉ (TOTAL_PREFIX ++ num2morse c) := by
    intro hmem
    rcases List.mem_append.mp hmem with h1 | h2
    · exact absurd h1 (by decide)
    · exact newline_not_mem_num2morse c h2
  have hcontent : (upload_log ⟨[], false⟩ [] rs 0 c).content
      = (TOTAL_PREFIX ++ num2morse c) ++ '\n' :: rs.flatten := by
    simp [upload_log, writelines, pyClose, List.append_assoc]
  have h20 : TOTAL_PREFIX.length = 20 := by decide
  have hread : pyReadline ((TOTAL_PREFIX ++ num2morse c) ++ '\n' :: rs.flatten)
      = TOTAL_PREFIX ++ (num2morse c ++ ['\n']) := by
    rw [pyReadline_line _ _ hbody, List.append_assoc]
  have hdrop : (TOTAL_PREFIX ++ (num2morse c ++ ['\n'])).drop 20
      = num2morse c ++ ['\n'] := by
    rw [← h20, List.drop_left]
  have hstrip : pyRstrip (num2morse c ++ ['\n']) = num2morse c := by
    refine pyRstrip_append_space _ _ (by decide) ?_
    rw [num2morse_eq_joinSep]
    exact joinSep_revhead _ htok
  have hlines : pyLinesKeepEnds ((TOTAL_PREFIX ++ num2morse c) ++ '\n' :: rs.flatten)
      = ((TOTAL_PREFIX ++ num2morse c) ++ ['\n']) :: rs := by
    rw [pyLines_cons _ _ hbody, pyLines_flatten rs h]
  rw [hcontent]
  unfold initialisation
  simp only [Bool.not_false, if_true, hread, hdrop, hstrip, hlines]
  rw [if_pos hmne, morse2num_num2morse c]
  rfl

/-- Witness for C1: header count 5 and two concrete record lines. -/
theorem log_roundtrip_witness :
    initialisation ⟨(upload_log ⟨[], false⟩ [] ["A\n".data, "B\n".data] 0 5).content,
        false⟩ false
      = some (["A\n".data, "B\n".data], 5, ⟨[], false⟩) := by
  refine log_roundtrip 5 _ ?_
  intro r hr
  rcases List.mem_cons.mp hr with rfl | hr2
  · exact ⟨"A".data, by decide, by decide⟩
  rcases List.mem_cons.mp hr2 with rfl | hr3
  · exact ⟨"B".data, by decide, by decide⟩
  · simp at hr3

/-! Overflow clamp lemmas for the arithmetic claims. -/

theorem FMAX_eq : FMAX = (2 : ℚ) ^ 1024 := by
  unfold FMAX
  push_cast
  ring

theorem FMAX_big : (380 : ℚ) < FMAX := by
  rw [FMAX_eq]
  calc (380 : ℚ) < 2 ^ 9 := by norm_num
    _ ≤ 2 ^ 1024 := pow_le_pow_right₀ (by norm_num) (by norm_num)

theorem mkFinite_eq_finite (q : ℚ) (h : |q| < FMAX) : mkFinite q = .finite q := by
  rcases abs_lt.mp h with ⟨h1, h2⟩
  unfold mkFinite
  rw [if_neg (by linarith), if_neg (by linarith)]

theorem overflow_wrap (q : ℚ) :
    (if (mkFinite q).isinf then (Except.error PyErr.overflowError : Except PyErr FloatVal)
      else Except.ok (mkFinite q))
      = if FMAX ≤ |q| then Except.error PyErr.overflowError
        else Except.ok (FloatVal.finite q) := by
  unfold mkFinite
  by_cases h1 : FMAX ≤ q
  · rw [if_pos h1, if_pos (le_abs.mpr (Or.inl h1))]
    rfl
  · by_cases h2 : q ≤ -FMAX
    · rw [if_neg h1, if_pos h2, if_pos (le_abs.mpr (Or.inr (by linarith)))]
      rfl
    · rw [if_neg h1, if_neg h2,
        if_neg (not_le.mpr (abs_lt.mpr ⟨by linarith, by linarith⟩))]
      rfl

/-- C3: on finite operands each arithmetic function returns the exact result
and raises the overflow error (distinct from divide-by-zero) exactly when the
result's magnitude reaches the float overflow threshold; for division the
divisor is assumed nonzero. -/
theorem arithmetic_overflow (a b : ℚ) :
    (addition (.finite a) (.finite b)
        = if FMAX ≤ |a + b| then .error .overflowError else .ok (.finite (a + b))) ∧
      (subtraction (.finite a) (.finite b)
        = if FMAX ≤ |a - b| then .error .overflowError else .ok (.finite (a - b))) ∧
      (multiplication (.finite a) (.finite b)
        = if FMAX ≤ |a * b| then .error .overflowError else .ok (.finite (a * b))) ∧
      (b ≠ 0 →
        division (.finite a) (.finite b)
          = if FMAX ≤ |a / b| then .error .overflowError else .ok (.finite (a / b))) ∧
      PyErr.overflowError ≠ PyErr.zeroDivisionError := by
  refine ⟨?_, ?_, ?_, ?_, by decide⟩
  · unfold addition
    rw [show fadd (.finite a) (.finite b) = mkFinite (a + b) from rfl]
    exact overflow_wrap _
  · unfold subtraction
    rw [show fsub (.finite a) (.finite b) = mkFinite (a - b) from rfl]
    exact overflow_wrap _
  · unfold multiplication
    rw [show fmul (.finite a) (.finite b) = mkFinite (a * b) from rfl]
    exact overflow_wrap _
  · intro hb
    have hfd : fdiv (.finite a) (.finite b) = .ok (mkFinite (a / b)) := by
      show (if b = 0 then (Except.error PyErr.zeroDivisionError : Except PyErr FloatVal)
        else .ok (mkFinite (a / b))) = .ok (mkFinite (a / b))
      rw [if_neg hb]
    unfold division
    rw [hfd]
    exact overflow_wrap _

/-- Witness for C3 at the operands 1 and 2, discharging the nonzero-divisor
hypothesis. -/
theorem arithmetic_overflow_witness :
    division (.finite 1) (.finite 2) = .ok (.finite (1 / 2)) := by
  have h := (arithmetic_overflow 1 2).2.2.2.1 (by norm_num)
  rw [h, if_neg]
  intro hcontra
  have hbig := FMAX_big
  rw [show |(1 : ℚ) / 2| = 1 / 2 from by norm_num] at hcontra
  linarith

/-- C4: dividing any float — positive, negative, zero, or non-finite — by the
float 0 raises the divide-by-zero error, which is a different error kind from
overflow; the `Except` short-circuit means no result value is produced. -/
theorem division_by_zero (dividend : FloatVal) :
    division dividend (.finite 0) = .error .zeroDivisionError ∧
      PyErr.zeroDivisionError ≠ PyErr.overflowError := by
  refine ⟨?_, by decide⟩
  unfold division
  have hfd : fdiv dividend (.finite 0) = .error .zeroDivisionError := by
    cases dividend <;> rfl
  rw [hfd]

/-! Triangle validation. -/

theorem pyEq_sum (a b c : ℚ)
    (h : pyEq (fadd (fadd (.finite a) (.finite b)) (.finite c)) (.finite 180) = true) :
    a + b + c = 180 := by
  rw [show fadd (.finite a) (.finite b) = mkFinite (a + b) from rfl] at h
  unfold mkFinite at h
  by_cases hab : FMAX ≤ a + b
  · rw [if_pos hab] at h
    rw [show pyEq (fadd FloatVal.pinf (FloatVal.finite c)) (FloatVal.finite 180)
        = false from rfl] at h
    exact Bool.noConfusion h
  · by_cases hab2 : a + b ≤ -FMAX
    · rw [if_neg hab, if_pos hab2] at h
      rw [show pyEq (fadd FloatVal.ninf (FloatVal.finite c)) (FloatVal.finite 180)
          = false from rfl] at h
      exact Bool.noConfusion h
    · rw [if_neg hab, if_neg hab2,
        show fadd (FloatVal.finite (a + b)) (FloatVal.finite c)
          = mkFinite (a + b + c) from rfl] at h
      unfold mkFinite at h
      by_cases habc : FMAX ≤ a + b + c
      · rw [if_pos habc] at h
        exact Bool.noConfusion h
      · by_cases habc2 : a + b + c ≤ -FMAX
        · rw [if_neg habc, if_pos habc2] at h
          exact Bool.noConfusion h
        · rw [if_neg habc, if_neg habc2] at h
          rw [show pyEq (FloatVal.finite (a + b + c)) (FloatVal.finite 180)
              = ((a + b + c : ℚ) == 180) from rfl] at h
          exact beq_iff_eq.mp h

theorem validate_triangle_iff (a b c : ℚ) :
    validate_triangle (.finite a) (.finite b) (.finite c) = .ok () ↔
      (a + b + c = 180 ∧ (0 < a ∧ 0 < b ∧ 0 < c) ∧ (5 ≤ a ∧ 5 ≤ b ∧ 5 ≤ c)) := by
  constructor
  · intro hok
    unfold validate_triangle at hok
    split at hok
    · exact Except.noConfusion hok
    · split at hok
      · exact Except.noConfusion hok
      · split at hok
        · exact Except.noConfusion hok
        · rename_i hc1 hc2 hc3
          have hsum : a + b + c = 180 := by
            apply pyEq_sum a b c
            revert hc1
            cases pyEq (fadd (fadd (.finite a) (.finite b)) (.finite c)) (.finite 180) <;>
              simp
          rw [show pyLe (FloatVal.finite a) (FloatVal.finite 0) = decide (a ≤ 0) from rfl,
            show pyLe (FloatVal.finite b) (FloatVal.finite 0) = decide (b ≤ 0) from rfl,
            show pyLe (FloatVal.finite c) (FloatVal.finite 0) = decide (c ≤ 0) from rfl] at hc2
          rw [show pyLt (FloatVal.finite a) (FloatVal.finite 5) = decide (a < 5) from rfl,
            show pyLt (FloatVal.finite b) (FloatVal.finite 5) = decide (b < 5) from rfl,
            show pyLt (FloatVal.finite c) (FloatVal.finite 5) = decide (c < 5) from rfl] at hc3
          simp only [Bool.or_eq_true, decide_eq_true_eq, not_or, not_le, not_lt] at hc2 hc3
          exact ⟨hsum, ⟨hc2.1.1, hc2.1.2, hc2.2⟩, ⟨hc3.1.1, hc3.1.2, hc3.2⟩⟩
  · rintro ⟨hsum, ⟨hpa, hpb, hpc⟩, hma, hmb, hmc⟩
    have hub1 : a ≤ 170 := by linarith
    have hub2 : b ≤ 170 := by linarith
    have hub3 : c ≤ 170 := by linarith
    have hbig := FMAX_big
    have e1 : fadd (.finite a) (.finite b) = .finite (a + b) := by
      rw [show fadd (.finite a) (.finite b) = mkFinite (a + b) from rfl]
      exact mkFinite_eq_finite _ (abs_lt.mpr ⟨by linarith, by linarith⟩)
    have e2 : fadd (.finite (a + b)) (.finite c) = .finite 180 := by
      rw [show fadd (.finite (a + b)) (.finite c) = mkFinite (a + b + c) from rfl, hsum]
      exact mkFinite_eq_finite _ (abs_lt.mpr ⟨by linarith, by linarith⟩)
    unfold validate_triangle
    rw [e1, e2]
    rw [if_neg (by simp [show pyEq (FloatVal.finite 180) (FloatVal.finite 180)
        = true from by decide])]
    rw [if_neg (by
      simp only [show pyLe (FloatVal.finite a) (FloatVal.finite 0) = decide (a ≤ 0) from rfl,
        show pyLe (FloatVal.finite b) (FloatVal.finite 0) = decide (b ≤ 0) from rfl,
        show pyLe (FloatVal.finite c) (FloatVal.finite 0) = decide (c ≤ 0) from rfl,
        Bool.or_eq_true, decide_eq_true_eq]
      push_neg
      exact ⟨⟨hpa, hpb⟩, hpc⟩)]
    rw [if_neg (by
      simp only [show pyLt (FloatVal.finite a) (FloatVal.finite 5) = decide (a < 5) from rfl,
        show pyLt (FloatVal.finite b) (FloatVal.finite 5) = decide (b < 5) from rfl,
        show pyLt (FloatVal.finite c) (FloatVal.finite 5) = decide (c < 5) from rfl,
        Bool.or_eq_true, decide_eq_true_eq]
      push_neg
      exact ⟨⟨hma, hmb⟩, hmc⟩)]

/-- C7: the triangle validation accepts three finite angles exactly when they
sum to 180, are all positive, and are all at least 5 degrees (in the code's
check order the positivity test is subsumed by the 5-degree minimum); the
spec's four sample triples behave as listed, and a rejected triple makes the
menu iteration continue with the session state unchanged. -/
theorem triangle_validation :
    (∀ a b c : ℚ,
        validate_triangle (.finite a) (.finite b) (.finite c) = .ok () ↔
          (a + b + c = 180 ∧ (0 < a ∧ 0 < b ∧ 0 < c) ∧ (5 ≤ a ∧ 5 ≤ b ∧ 5 ≤ c))) ∧
      validate_triangle (.finite 60) (.finite 60) (.finite 60) = .ok () ∧
      validate_triangle (.finite 60) (.finite 60) (.finite 70)
        = .error (.valueError SUM_MSG) ∧
      validate_triangle (.finite 0) (.finite 90) (.finite 90)
        = .error (.valueError POS_MSG) ∧
      validate_triangle (.finite 2) (.finite 88) (.finite 90)
        = .error (.valueError MIN_MSG) ∧
      (∀ (st : SessState) (today : RDate) (rest : List Chars),
        menuStep st today ("5".data :: "0".data :: "90".data :: "90".data :: rest)
          = .cont st rest (some (.valueError POS_MSG))) :=
  ⟨validate_triangle_iff, by decide, by decide, by decide, by decide,
    fun st today rest => rfl⟩

/-- C6 counterexample: on the submenu script `7`, `9`, `y` the unrecognized
selection `7` does not re-show the submenu (re-showing would consume the
later `9`/`y` lines and exit cleanly); instead the submenu ends at once with
the invalid-selection `KeyError` and the rest of the script unconsumed. -/
theorem submenu_counterexample :
    formatting_submenu (.finite 5) false ["7".data, "9".data, "y".data]
      = (.error (.keyError SUBMENU_KEY_MSG), ["9".data, "y".data]) := by
  decide

/-- C6 amended: an unrecognized formatting-submenu selection raises the
invalid-selection `KeyError`, which terminates the submenu immediately (the
remaining script is returned unread); the error is then caught and reported
by the main-menu loop, which continues — shown concretely on a subtraction
followed by the bad submenu selection `x`. -/
theorem submenu_invalid_raises (result : FloatVal) (is_fraction : Bool)
    (sel : Chars) (rest : List Chars)
    (h1 : sel ≠ "1".data) (h2 : sel ≠ "2".data) (h3 : sel ≠ "3".data)
    (h4 : ¬(sel = "4".data ∧ is_fraction = true)) (h9 : sel ≠ "9".data) :
    formatting_submenu result is_fraction (sel :: rest)
      = (.error (.keyError SUBMENU_KEY_MSG), rest) ∧
      menuStep ⟨[], 0⟩ ⟨1, 1, 1⟩ ["2".data, "9".data, "4".data, "x".data]
        = .cont ⟨["Timestamp I.I.I Calculation 9/1 - 4/1 = 5/1\n".data], 1⟩ []
            (some (.keyError SUBMENU_KEY_MSG)) := by
  constructor
  · unfold formatting_submenu
    simp only [List.length_cons]
    have hgo : formatting_submenuGo result is_fraction (rest.length + 1) (sel :: rest)
        = (if sel = "1".data then
            formatting_submenuGo result is_fraction rest.length rest
          else if sel = "2".data then
            formatting_submenuGo result is_fraction rest.length rest
          else if sel = "3".data then
            (match result with
              | .finite _ => formatting_submenuGo result is_fraction rest.length rest
              | .nan => (.error (.valueError NAN_INT_MSG), rest)
              | _ => (.error .overflowError, rest))
          else if sel = "4".data ∧ is_fraction = true then
            (match result with
              | .finite _ => formatting_submenuGo result is_fraction rest.length rest
              | .nan => (.error (.valueError NAN_RATIO_MSG), rest)
              | _ => (.error .overflowError, rest))
          else if sel = "9".data then
            (match running_confirmation rest with
              | (.error e, r) => (.error e, r)
              | (.ok submenu_running, r) =>
                if submenu_running then formatting_submenuGo result is_fraction rest.length r
                else (.ok (), r))
          else (.error (.keyError SUBMENU_KEY_MSG), rest)) := rfl
    rw [hgo, if_neg h1, if_neg h2, if_neg h3, if_neg h4, if_neg h9]
  · decide

/-- Witness for C6's amended theorem at the unrecognized selection `8`. -/
theorem submenu_invalid_raises_witness :
    formatting_submenu (.finite 3) true ["8".data]
      = (.error (.keyError SUBMENU_KEY_MSG), []) :=
  (submenu_invalid_raises (.finite 3) true "8".data []
    (by decide) (by decide) (by decide) (by decide) (by decide)).1

/-- C10: `valid_float_input` accepts any input line whose lower-cased text
parses as a float — including `inf`, `-inf` and `nan` — so the arithmetic
functions can receive non-finite operands; `addition(inf, -inf)` then returns
NaN without raising any error, and a full menu iteration on that input logs
the NaN result and runs the formatting submenu like an ordinary result. -/
theorem nan_gap :
    (∀ (s : Chars) (rest : List Chars) (v : FloatVal),
        pyFloat (pyLower s) = some v →
          valid_float_input (s :: rest) = (.ok v, rest)) ∧
      pyFloat "inf".data = some .pinf ∧
      pyFloat "-inf".data = some .ninf ∧
      pyFloat "nan".data = some .nan ∧
      addition .pinf .ninf = .ok .nan ∧
      menuStep ⟨[], 0⟩ ⟨1, 1, 1⟩
          ["1".data, "inf".data, "-inf".data, "9".data, "y".data]
        = .cont ⟨["Timestamp I.I.I Calculation inf + -inf = nan\n".data], 1⟩ [] none := by
  refine ⟨?_, by decide, by decide, by decide, by decide, by decide⟩
  intro s rest v h
  have hv : valid_float_input (s :: rest)
      = match pyFloat (pyLower s) with
        | some v2 => (Except.ok v2, rest)
        | none =>
          if pyLower s = "x".data ∨ pyLower s = "exit".data then
            (Except.error (PyErr.exception "Quit User Input"), rest)
          else valid_float_input rest := rfl
  rw [hv, h]

/-- Witness for C10 at the upper-case input line `INF`. -/
theorem nan_gap_witness :
    valid_float_input ["INF".data] = (.ok .pinf, []) :=
  nan_gap.1 "INF".data [] .pinf (by decide)

/-! Error classification of the interactive helpers, for the atomicity claim. -/

theorem valid_float_input_cons (s : Chars) (rest : List Chars) :
    valid_float_input (s :: rest)
      = match pyFloat (pyLower s) with
        | some v => (Except.ok v, rest)
        | none =>
          if pyLower s = "x".data ∨ pyLower s = "exit".data then
            (Except.error (PyErr.exception "Quit User Input"), rest)
          else valid_float_input rest := rfl

theorem running_confirmation_cons (s : Chars) (rest : List Chars) :
    running_confirmation (s :: rest)
      = if pyLower s = "y".data ∨ pyLower s = "n".data ∨
            pyLower s = "yes".data ∨ pyLower s = "no".data then
          (Except.ok (pyLower s = "n".data ∨ pyLower s = "no".data : Bool), rest)
        else running_confirmation rest := rfl

theorem formatting_submenuGo_succ (res : FloatVal) (fr : Bool) (fuel : Nat)
    (s : Chars) (rest : List Chars) :
    formatting_submenuGo res fr (fuel + 1) (s :: rest)
      = (if s = "1".data then formatting_submenuGo res fr fuel rest
        else if s = "2".data then formatting_submenuGo res fr fuel rest
        else if s = "3".data then
          (match res with
            | .finite _ => formatting_submenuGo res fr fuel rest
            | .nan => (.error (.valueError NAN_INT_MSG), rest)
            | _ => (.error .overflowError, rest))
        else if s = "4".data ∧ fr = true then
          (match res with
            | .finite _ => formatting_submenuGo res fr fuel rest
            | .nan => (.error (.valueError NAN_RATIO_MSG), rest)
            | _ => (.error .overflowError, rest))
        else if s = "9".data then
          (match running_confirmation rest with
            | (.error e, r) => (.error e, r)
            | (.ok submenu_running, r) =>
              if submenu_running then formatting_submenuGo res fr fuel r
              else (.ok (), r))
        else (.error (.keyError SUBMENU_KEY_MSG), rest)) := rfl

theorem running_confirmation_error (ins : List Chars) :
    ∀ e r, running_confirmation ins = (.error e, r) → e = .eofError := by
  induction ins with
  | nil =>
    intro e r h
    simp only [running_confirmation, Prod.mk.injEq] at h
    exact (Except.error.inj h.1).symm
  | cons s rest ih =>
    intro e r h
    rw [running_confirmation_cons] at h
    by_cases hc : pyLower s = "y".data ∨ pyLower s = "n".data ∨
        pyLower s = "yes".data ∨ pyLower s = "no".data
    · rw [if_pos hc] at h
      simp at h
    · rw [if_neg hc] at h
      exact ih e r h

theorem valid_float_input_error (ins : List Chars) :
    ∀ e r, valid_float_input ins = (.error e, r) →
      e = .eofError ∨ e = .exception "Quit User Input" := by
  induction ins with
  | nil =>
    intro e r h
    simp only [valid_float_input, Prod.mk.injEq] at h
    exact Or.inl (Except.error.inj h.1).symm
  | cons s rest ih =>
    intro e r h
    rw [valid_float_input_cons] at h
    cases hpf : pyFloat (pyLower s) with
    | some v => rw [hpf] at h; simp at h
    | none =>
      rw [hpf] at h
      by_cases hq : pyLower s = "x".data ∨ pyLower s = "exit".data
      · rw [if_pos hq] at h
        simp only [Prod.mk.injEq] at h
        exact Or.inr (Except.error.inj h.1).symm
      · rw [if_neg hq] at h
        exact ih e r h

theorem submenu_error (res : FloatVal) (fr : Bool) :
    ∀ (fuel : Nat) (ins : List Chars) (e : PyErr) (r : List Chars),
      formatting_submenuGo res fr fuel ins = (.error e, r) →
        e = .keyError SUBMENU_KEY_MSG ∨ e = .eofError ∨ e = .overflowError ∨
          ∃ m, e = .valueError m := by
  intro fuel
  induction fuel with
  | zero =>
    intro ins e r h
    cases ins with
    | nil =>
      rw [show formatting_submenuGo res fr 0 [] = (.error .eofError, []) from rfl] at h
      simp only [Prod.mk.injEq] at h
      exact Or.inr (Or.inl (Except.error.inj h.1).symm)
    | cons s rest =>
      rw [show formatting_submenuGo res fr 0 (s :: rest)
          = (.error .eofError, s :: rest) from rfl] at h
      simp only [Prod.mk.injEq] at h
      exact Or.inr (Or.inl (Except.error.inj h.1).symm)
  | succ f ih =>
    intro ins e r h
    cases ins with
    | nil =>
      rw [show formatting_submenuGo res fr (f + 1) [] = (.error .eofError, []) from rfl] at h
      simp only [Prod.mk.injEq] at h
      exact Or.inr (Or.inl (Except.error.inj h.1).symm)
    | cons s rest =>
      rw [formatting_submenuGo_succ] at h
      by_cases h1 : s = "1".data
      · rw [if_pos h1] at h; exact ih _ _ _ h
      rw [if_neg h1] at h
      by_cases h2 : s = "2".data
      · rw [if_pos h2] at h; exact ih _ _ _ h
      rw [if_neg h2] at h
      by_cases h3 : s = "3".data
      · rw [if_pos h3] at h
        cases res with
        | finite q => exact ih _ _ _ h
        | nan =>
          simp only [Prod.mk.injEq] at h
          exact Or.inr (Or.inr (Or.inr ⟨_, (Except.error.inj h.1).symm⟩))
        | pinf =>
          simp only [Prod.mk.injEq] at h
          exact Or.inr (Or.inr (Or.inl (Except.error.inj h.1).symm))
        | ninf =>
          simp only [Prod.mk.injEq] at h
          exact Or.inr (Or.inr (Or.inl (Except.error.inj h.1).symm))
      rw [if_neg h3] at h
      by_cases h4 : s = "4".data ∧ fr = true
      · rw [if_pos h4] at h
        cases res with
        | finite q => exact ih _ _ _ h
        | nan =>
          simp only [Prod.mk.injEq] at h
          exact Or.inr (Or.inr (Or.inr ⟨_, (Except.error.inj h.1).symm⟩))
        | pinf =>
          simp only [Prod.mk.injEq] at h
          exact Or.inr (Or.inr (Or.inl (Except.error.inj h.1).symm))
        | ninf =>
          simp only [Prod.mk.injEq] at h
          exact Or.inr (Or.inr (Or.inl (Except.error.inj h.1).symm))
      rw [if_neg h4] at h
      by_cases h9 : s = "9".data
      · rw [if_pos h9] at h
        cases hrc : running_confirmation rest with
        | mk fst snd =>
          rw [hrc] at h
          cases fst with
          | error e2 =>
            simp only [Prod.mk.injEq] at h
            have he2 := running_confirmation_error rest e2 snd hrc
            exact Or.inr (Or.inl ((Except.error.inj h.1).symm ▸ he2))
          | ok b =>
            cases b with
            | true => simp only [if_true] at h; exact ih _ _ _ h
            | false => simp at h
      rw [if_neg h9] at h
      simp only [Prod.mk.injEq] at h
      exact Or.inl (Except.error.inj h.1).symm

theorem dispatch_state (st : SessState) (e : PyErr) (r : List Chars) :
    stepState (dispatch st e r) = st := by
  cases e <;> rfl

theorem dispatch_cont (st : SessState) (e : PyErr) (r : List Chars)
    (st2 : SessState) (r2 : List Chars) (c2 : Option PyErr) :
    dispatch st e r = .cont st2 r2 c2 → st2 = st ∧ c2 = some e := by
  intro h
  cases e <;> simp [dispatch] at h <;> exact ⟨h.1.symm, h.2.2.symm⟩

theorem overflow_guard_ok (w v : FloatVal)
    (h : (if w.isinf then (Except.error PyErr.overflowError : Except PyErr FloatVal)
        else Except.ok w) = .ok v) : v.isinf = false := by
  by_cases hw : w.isinf = true
  · rw [if_pos hw] at h
    exact Except.noConfusion h
  · rw [if_neg hw] at h
    obtain rfl := Except.ok.inj h
    cases hb : w.isinf with
    | true => exact absurd hb hw
    | false => rfl

theorem overflow_guard_err (w : FloatVal) (e : PyErr)
    (h : (if w.isinf then (Except.error PyErr.overflowError : Except PyErr FloatVal)
        else Except.ok w) = .error e) : e = .overflowError := by
  by_cases hw : w.isinf = true
  · rw [if_pos hw] at h
    exact (Except.error.inj h).symm
  · rw [if_neg hw] at h
    exact Except.noConfusion h

theorem addition_ok_not_inf (x y v : FloatVal) (h : addition x y = .ok v) :
    v.isinf = false :=
  overflow_guard_ok (fadd x y) v h

theorem subtraction_ok_not_inf (x y v : FloatVal) (h : subtraction x y = .ok v) :
    v.isinf = false :=
  overflow_guard_ok (fsub x y) v h

theorem multiplication_ok_not_inf (x y v : FloatVal) (h : multiplication x y = .ok v) :
    v.isinf = false :=
  overflow_guard_ok (fmul x y) v h

theorem division_ok_not_inf (x y v : FloatVal) (h : division x y = .ok v) :
    v.isinf = false := by
  unfold division at h
  cases hfd : fdiv x y with
  | error e2 =>
    rw [hfd] at h
    exact Except.noConfusion h
  | ok q =>
    rw [hfd] at h
    exact overflow_guard_ok q v h

theorem addition_err (x y : FloatVal) (e : PyErr) (h : addition x y = .error e) :
    e = .overflowError ∨ e = .zeroDivisionError :=
  Or.inl (overflow_guard_err (fadd x y) e h)

theorem subtraction_err (x y : FloatVal) (e : PyErr) (h : subtraction x y = .error e) :
    e = .overflowError ∨ e = .zeroDivisionError :=
  Or.inl (overflow_guard_err (fsub x y) e h)

theorem multiplication_err (x y : FloatVal) (e : PyErr) (h : multiplication x y = .error e) :
    e = .overflowError ∨ e = .zeroDivisionError :=
  Or.inl (overflow_guard_err (fmul x y) e h)

theorem fdiv_error (x y : FloatVal) (e : PyErr) :
    fdiv x y = .error e → e = .zeroDivisionError := by
  intro h
  cases y <;> cases x <;> simp only [fdiv] at h <;>
    first
      | exact Except.noConfusion h
      | (split at h
         · exact (Except.error.inj h).symm
         · exact Except.noConfusion h)

theorem division_err (x y : FloatVal) (e : PyErr) (h : division x y = .error e) :
    e = .overflowError ∨ e = .zeroDivisionError := by
  unfold division at h
  cases hfd : fdiv x y with
  | error e2 =>
    rw [hfd] at h
    have h2 : (Except.error e2 : Except PyErr FloatVal) = .error e := h
    exact Or.inr ((Except.error.inj h2).symm ▸ fdiv_error x y e2 hfd)
  | ok q =>
    rw [hfd] at h
    exact Or.inl (overflow_guard_err q e h)

/-- Refined submenu error classification: on a non-infinite result (the only
kind the arithmetic operations can hand over), the formatting submenu fails
only with the invalid-selection `KeyError`, end of input, or one of the two
NaN `ValueError`s. -/
theorem submenu_error_finite (res : FloatVal) (fr : Bool) (hres : res.isinf = false) :
    ∀ (fuel : Nat) (ins : List Chars) (e : PyErr) (r : List Chars),
      formatting_submenuGo res fr fuel ins = (.error e, r) →
        e = .keyError SUBMENU_KEY_MSG ∨ e = .eofError ∨
          e = .valueError NAN_INT_MSG ∨ e = .valueError NAN_RATIO_MSG := by
  intro fuel
  induction fuel with
  | zero =>
    intro ins e r h
    cases ins with
    | nil =>
      rw [show formatting_submenuGo res fr 0 [] = (.error .eofError, []) from rfl] at h
      simp only [Prod.mk.injEq] at h
      exact Or.inr (Or.inl (Except.error.inj h.1).symm)
    | cons s rest =>
      rw [show formatting_submenuGo res fr 0 (s :: rest)
          = (.error .eofError, s :: rest) from rfl] at h
      simp only [Prod.mk.injEq] at h
      exact Or.inr (Or.inl (Except.error.inj h.1).symm)
  | succ f ih =>
    intro ins e r h
    cases ins with
    | nil =>
      rw [show formatting_submenuGo res fr (f + 1) [] = (.error .eofError, []) from rfl] at h
      simp only [Prod.mk.injEq] at h
      exact Or.inr (Or.inl (Except.error.inj h.1).symm)
    | cons s rest =>
      rw [formatting_submenuGo_succ] at h
      by_cases h1 : s = "1".data
      · rw [if_pos h1] at h; exact ih _ _ _ h
      rw [if_neg h1] at h
      by_cases h2 : s = "2".data
      · rw [if_pos h2] at h; exact ih _ _ _ h
      rw [if_neg h2] at h
      by_cases h3 : s = "3".data
      · rw [if_pos h3] at h
        cases res with
        | finite q => exact ih _ _ _ h
        | nan =>
          simp only [Prod.mk.injEq] at h
          exact Or.inr (Or.inr (Or.inl (Except.error.inj h.1).symm))
        | pinf => exact absurd hres (by decide)
        | ninf => exact absurd hres (by decide)
      rw [if_neg h3] at h
      by_cases h4 : s = "4".data ∧ fr = true
      · rw [if_pos h4] at h
        cases res with
        | finite q => exact ih _ _ _ h
        | nan =>
          simp only [Prod.mk.injEq] at h
          exact Or.inr (Or.inr (Or.inr (Except.error.inj h.1).symm))
        | pinf => exact absurd hres (by decide)
        | ninf => exact absurd hres (by decide)
      rw [if_neg h4] at h
      by_cases h9 : s = "9".data
      · rw [if_pos h9] at h
        cases hrc : running_confirmation rest with
        | mk fst snd =>
          rw [hrc] at h
          cases fst with
          | error e2 =>
            simp only [Prod.mk.injEq] at h
            have he2 := running_confirmation_error rest e2 snd hrc
            exact Or.inr (Or.inl ((Except.error.inj h.1).symm ▸ he2))
          | ok b =>
            cases b with
            | true => simp only [if_true] at h; exact ih _ _ _ h
            | false => simp at h
      rw [if_neg h9] at h
      simp only [Prod.mk.injEq] at h
      exact Or.inl (Except.error.inj h.1).symm

theorem validate_triangle_error (a b c : FloatVal) (e : PyErr) :
    validate_triangle a b c = .error e →
      e = .valueError SUM_MSG ∨ e = .valueError POS_MSG ∨ e = .valueError MIN_MSG := by
  intro h
  unfold validate_triangle at h
  split at h
  · exact Or.inl (Except.error.inj h).symm
  · split at h
    · exact Or.inr (Or.inl (Except.error.inj h).symm)
    · split at h
      · exact Or.inr (Or.inr (Except.error.inj h).symm)
      · exact Except.noConfusion h

theorem arithBranch_atomic (st : SessState) (today : RDate)
    (op : FloatVal → FloatVal → Except PyErr FloatVal) (sym : Chars)
    (ins : List Chars)
    (hop_ok : ∀ x y v, op x y = .ok v → v.isinf = false)
    (hop_err : ∀ x y e, op x y = .error e →
      e = .overflowError ∨ e = .zeroDivisionError) :
    (stepState (arithBranch st today op sym ins) = st ∨
      ∃ rec, stepState (arithBranch st today op sym ins)
        = ⟨st.new_log ++ [rec], st.new_calc_count + 1⟩) ∧
    (∀ st2 r2 e, arithBranch st today op sym ins = .cont st2 r2 (some e) →
      ((e = .keyError SUBMENU_KEY_MSG ∨ e = .valueError NAN_INT_MSG ∨
          e = .valueError NAN_RATIO_MSG) →
        ∃ rec, st2 = ⟨st.new_log ++ [rec], st.new_calc_count + 1⟩) ∧
      ((e = .keyError MAIN_KEY_MSG ∨ e = .exception "Quit User Input" ∨
          e = .zeroDivisionError ∨ e = .overflowError ∨ e = .valueError SUM_MSG ∨
          e = .valueError POS_MSG ∨ e = .valueError MIN_MSG) →
        st2 = st)) := by
  unfold arithBranch
  cases hv1 : valid_float_input ins with
  | mk f1 r1 =>
    cases f1 with
    | error e1 =>
      dsimp only
      refine ⟨Or.inl (dispatch_state ..), ?_⟩
      intro st2 r2 e hcont
      rcases dispatch_cont _ _ _ _ _ _ hcont with ⟨hst, hc⟩
      have he : e = e1 := Option.some.inj hc
      have he1 := valid_float_input_error ins e1 r1 hv1
      constructor
      · intro hsub
        exfalso
        rcases he1 with h1 | h1 <;> rw [he, h1] at hsub <;> exact absurd hsub (by decide)
      · intro _
        exact hst
    | ok x =>
      dsimp only
      cases hv2 : valid_float_input r1 with
      | mk f2 r2x =>
        cases f2 with
        | error e2 =>
          dsimp only
          refine ⟨Or.inl (dispatch_state ..), ?_⟩
          intro st2 r2 e hcont
          rcases dispatch_cont _ _ _ _ _ _ hcont with ⟨hst, hc⟩
          have he : e = e2 := Option.some.inj hc
          have he2 := valid_float_input_error r1 e2 r2x hv2
          constructor
          · intro hsub
            exfalso
            rcases he2 with h1 | h1 <;> rw [he, h1] at hsub <;>
              exact absurd hsub (by decide)
          · intro _
            exact hst
        | ok y =>
          dsimp only
          cases hop : op x y with
          | error e3 =>
            dsimp only
            refine ⟨Or.inl (dispatch_state ..), ?_⟩
            intro st2 r2 e hcont
            rcases dispatch_cont _ _ _ _ _ _ hcont with ⟨hst, hc⟩
            have he : e = e3 := Option.some.inj hc
            have he3 := hop_err x y e3 hop
            constructor
            · intro hsub
              exfalso
              rcases he3 with h1 | h1 <;> rw [he, h1] at hsub <;>
                exact absurd hsub (by decide)
            · intro _
              exact hst
          | ok new_result =>
            dsimp only
            cases hfs : formatting_submenu new_result (!new_result.is_integer) r2x with
            | mk ff rr =>
              cases ff with
              | ok u =>
                dsimp only
                constructor
                · exact Or.inr ⟨_, rfl⟩
                · intro st2 r2 e hcont
                  simp at hcont
              | error e4 =>
                dsimp only
                have hfin : new_result.isinf = false := hop_ok x y new_result hop
                have he4 := submenu_error_finite _ _ hfin _ _ _ _ hfs
                constructor
                · exact Or.inr ⟨_, dispatch_state ..⟩
                · intro st2 r2 e hcont
                  rcases dispatch_cont _ _ _ _ _ _ hcont with ⟨hst, hc⟩
                  have he : e = e4 := Option.some.inj hc
                  constructor
                  · intro _
                    exact ⟨_, hst⟩
                  · intro hpre
                    exfalso
                    rcases he4 with h4 | h4 | h4 | h4
                    · rw [he, h4] at hpre
                      exact absurd hpre (by decide)
                    · subst h4
                      simp [dispatch] at hcont
                    · rw [he, h4] at hpre
                      exact absurd hpre (by decide)
                    · rw [he, h4] at hpre
                      exact absurd hpre (by decide)

/-- C8 (amended): over one iteration of the main-menu loop the session state
either stays exactly the same or gains exactly one record with the counter up
by one; and for an iteration that ends in a caught (recoverable) error, the
error kind decides which: an error the formatting submenu raises after a
completed arithmetic operation (invalid submenu selection, or formatting a
NaN result) comes with exactly one appended record and the counter up by one,
while every recoverable error raised before an arithmetic operation completes
(invalid main-menu selection, user-cancelled input, division by zero,
arithmetic overflow, or any invalid-triangle message) leaves the state
exactly as it was. -/
theorem session_atomicity (st : SessState) (today : RDate) (inputs : List Chars) :
    (stepState (menuStep st today inputs) = st ∨
      ∃ rec, stepState (menuStep st today inputs)
        = ⟨st.new_log ++ [rec], st.new_calc_count + 1⟩) ∧
    (∀ st2 r2 e, menuStep st today inputs = .cont st2 r2 (some e) →
      ((e = .keyError SUBMENU_KEY_MSG ∨ e = .valueError NAN_INT_MSG ∨
          e = .valueError NAN_RATIO_MSG) →
        ∃ rec, st2 = ⟨st.new_log ++ [rec], st.new_calc_count + 1⟩) ∧
      ((e = .keyError MAIN_KEY_MSG ∨ e = .exception "Quit User Input" ∨
          e = .zeroDivisionError ∨ e = .overflowError ∨ e = .valueError SUM_MSG ∨
          e = .valueError POS_MSG ∨ e = .valueError MIN_MSG) →
        st2 = st)) := by
  cases inputs with
  | nil =>
    exact ⟨Or.inl rfl, fun st2 r2 e h => StepResult.noConfusion h⟩
  | cons sel rest =>
    by_cases hs1 : sel = "1".data
    · simp only [menuStep, if_pos hs1]
      exact arithBranch_atomic st today addition "+".data rest
        addition_ok_not_inf addition_err
    by_cases hs2 : sel = "2".data
    · simp only [menuStep, if_neg hs1, if_pos hs2]
      exact arithBranch_atomic st today subtraction "-".data rest
        subtraction_ok_not_inf subtraction_err
    by_cases hs3 : sel = "3".data
    · simp only [menuStep, if_neg hs1, if_neg hs2, if_pos hs3]
      exact arithBranch_atomic st today multiplication [Char.ofNat 215] rest
        multiplication_ok_not_inf multiplication_err
    by_cases hs4 : sel = "4".data
    · simp only [menuStep, if_neg hs1, if_neg hs2, if_neg hs3, if_pos hs4]
      exact arithBranch_atomic st today division [Char.ofNat 247] rest
        division_ok_not_inf division_err
    by_cases hs5 : sel = "5".data
    · simp only [menuStep, if_neg hs1, if_neg hs2, if_neg hs3, if_neg hs4, if_pos hs5]
      cases hv1 : valid_float_input rest with
      | mk f1 r1 =>
        cases f1 with
        | error e1 =>
          dsimp only
          refine ⟨Or.inl (dispatch_state ..), ?_⟩
          intro st2 r2 e hcont
          rcases dispatch_cont _ _ _ _ _ _ hcont with ⟨hst, hc⟩
          have he : e = e1 := Option.some.inj hc
          have he1 := valid_float_input_error rest e1 r1 hv1
          constructor
          · intro hsub
            exfalso
            rcases he1 with h1 | h1 <;> rw [he, h1] at hsub <;>
              exact absurd hsub (by decide)
          · intro _
            exact hst
        | ok a1 =>
          dsimp only
          cases hv2 : valid_float_input r1 with
          | mk f2 r2x =>
            cases f2 with
            | error e2 =>
              dsimp only
              refine ⟨Or.inl (dispatch_state ..), ?_⟩
              intro st2 r2 e hcont
              rcases dispatch_cont _ _ _ _ _ _ hcont with ⟨hst, hc⟩
              have he : e = e2 := Option.some.inj hc
              have he2 := valid_float_input_error r1 e2 r2x hv2
              constructor
              · intro hsub
                exfalso
                rcases he2 with h1 | h1 <;> rw [he, h1] at hsub <;>
                  exact absurd hsub (by decide)
              · intro _
                exact hst
            | ok a2 =>
              dsimp only
              cases hv3 : valid_float_input r2x with
              | mk f3 r3x =>
                cases f3 with
                | error e3 =>
                  dsimp only
                  refine ⟨Or.inl (dispatch_state ..), ?_⟩
                  intro st2 r2 e hcont
                  rcases dispatch_cont _ _ _ _ _ _ hcont with ⟨hst, hc⟩
                  have he : e = e3 := Option.some.inj hc
                  have he3 := valid_float_input_error r2x e3 r3x hv3
                  constructor
                  · intro hsub
                    exfalso
                    rcases he3 with h1 | h1 <;> rw [he, h1] at hsub <;>
                      exact absurd hsub (by decide)
                  · intro _
                    exact hst
                | ok a3 =>
                  dsimp only
                  cases hval : validate_triangle a1 a2 a3 with
                  | error e4 =>
                    dsimp only
                    refine ⟨Or.inl (dispatch_state ..), ?_⟩
                    intro st2 r2 e hcont
                    rcases dispatch_cont _ _ _ _ _ _ hcont with ⟨hst, hc⟩
                    have he : e = e4 := Option.some.inj hc
                    have he4 := validate_triangle_error a1 a2 a3 e4 hval
                    constructor
                    · intro hsub
                      exfalso
                      rcases he4 with h1 | h1 | h1 <;> rw [he, h1] at hsub <;>
                        exact absurd hsub (by decide)
                    · intro _
                      exact hst
                  | ok u =>
                    dsimp only
                    refine ⟨Or.inl rfl, ?_⟩
                    intro st2 r2 e hcont
                    simp at hcont
    by_cases hs9 : sel = "9".data
    · simp only [menuStep, if_neg hs1, if_neg hs2, if_neg hs3, if_neg hs4, if_neg hs5,
        if_pos hs9]
      cases hrc : running_confirmation rest with
      | mk fc rc =>
        cases fc with
        | error e1 =>
          dsimp only
          refine ⟨Or.inl (dispatch_state ..), ?_⟩
          intro st2 r2 e hcont
          have h1 := running_confirmation_error rest e1 rc hrc
          subst h1
          simp [dispatch] at hcont
        | ok b =>
          dsimp only
          cases b with
          | true =>
            refine ⟨Or.inl rfl, ?_⟩
            intro st2 r2 e hcont
            simp at hcont
          | false =>
            refine ⟨Or.inl rfl, ?_⟩
            intro st2 r2 e hcont
            simp at hcont
    · simp only [menuStep, if_neg hs1, if_neg hs2, if_neg hs3, if_neg hs4, if_neg hs5,
        if_neg hs9]
      refine ⟨Or.inl (dispatch_state ..), ?_⟩
      intro st2 r2 e hcont
      rcases dispatch_cont _ _ _ _ _ _ hcont with ⟨hst, hc⟩
      have he : e = .keyError MAIN_KEY_MSG := Option.some.inj hc
      constructor
      · intro hsub
        exfalso
        rw [he] at hsub
        exact absurd hsub (by decide)
      · intro _
        exact hst

/-- C8 counterexample: the script `1`, `2`, `3`, `7` completes the addition
`2 + 3` (appending a record and bumping the counter) and then the formatting
submenu raises the invalid-selection `KeyError`; the iteration thus ends in a
recoverable, caught error yet the session state is not the same as before. -/
theorem atomicity_counterexample :
    menuStep ⟨[], 0⟩ ⟨1, 1, 1⟩ ["1".data, "2".data, "3".data, "7".data]
      = .cont ⟨["Timestamp I.I.I Calculation 2/1 + 3/1 = 5/1\n".data], 1⟩ []
          (some (.keyError SUBMENU_KEY_MSG)) := by
  decide

/-- Witness for C8's amended theorem: the division-by-zero script `4`, `1`,
`0` provably leaves the session state unchanged, and the script `1`, `2`,
`3`, `7` (arithmetic completed, then an invalid submenu selection) provably
ends with exactly one appended record and the counter up by one. -/
theorem session_atomicity_witness :
    stepState (menuStep ⟨[], 0⟩ ⟨1, 1, 1⟩ ["4".data, "1".data, "0".data]) = ⟨[], 0⟩ ∧
      ∃ rec, stepState (menuStep ⟨[], 0⟩ ⟨1, 1, 1⟩
          ["1".data, "2".data, "3".data, "7".data])
        = ⟨([] : List Chars) ++ [rec], 0 + 1⟩ := by
  constructor
  · have hcont : menuStep ⟨[], 0⟩ ⟨1, 1, 1⟩ ["4".data, "1".data, "0".data]
        = .cont ⟨[], 0⟩ [] (some .zeroDivisionError) := by decide
    have h := ((session_atomicity ⟨[], 0⟩ ⟨1, 1, 1⟩
        ["4".data, "1".data, "0".data]).2 ⟨[], 0⟩ [] .zeroDivisionError hcont).2
      (Or.inr (Or.inr (Or.inl rfl)))
    rw [hcont]
    exact h
  · have hcont : menuStep ⟨[], 0⟩ ⟨1, 1, 1⟩ ["1".data, "2".data, "3".data, "7".data]
        = .cont ⟨["Timestamp I.I.I Calculation 2/1 + 3/1 = 5/1\n".data], 1⟩ []
            (some (.keyError SUBMENU_KEY_MSG)) := by decide
    have h := ((session_atomicity ⟨[], 0⟩ ⟨1, 1, 1⟩
        ["1".data, "2".data, "3".data, "7".data]).2
        ⟨["Timestamp I.I.I Calculation 2/1 + 3/1 = 5/1\n".data], 1⟩ []
        (.keyError SUBMENU_KEY_MSG) hcont).1 (Or.inl rfl)
    rw [hcont]
    exact h
